import Mathlib

/-!
Shallow embedding of `src/graph.py` (class `DynamicPlot`, Datalog-Grapher).

Conventions of the embedding:
* pandas cells after `pd.to_numeric(..., errors='coerce')` are `Option ℚ`
  (`none` = missing / not coercible); Python floats are modelled as exact
  rationals.
* the cleaned dataframe (`self.df` after `dropna`) is a `List Sample`, one
  `Sample` per surviving row, its `vals` aligned with `columns_to_display`.
* `Series.idxmin` (pandas) returns the position of the first occurrence of
  the minimum; `idxmin` below implements exactly that semantics.
* matplotlib state touched by the handler (`box_ab` visibility, the vertical
  line, the `TextArea` value slots) is a `PlotState` record; `on_mouse_move`
  is a state transition, `none` standing for the exception pandas raises
  when `idxmin` is applied to an empty series.
-/

namespace DynamicPlot

/-- One row of the cleaned dataframe: a time plus one value per configured
series, in `columns_to_display` order. -/
structure Sample where
  time : ℚ
  vals : List ℚ
deriving DecidableEq, Repr

/-- The raw CSV table as pandas sees it after numeric coercion of cells:
column names in file order, and each data row as a list of coerced cells
(`none` where `pd.to_numeric(..., errors='coerce')` yields NaN). -/
structure RawTable where
  columns : List String
  rows : List (List (Option ℚ))
deriving DecidableEq, Repr

/-- The two column-validation errors raised by `load_data` (lines 51-57 of
`graph.py`); both are `ValueError`s in the source, distinguished by message. -/
inductive LoadError where
  | missingTimeColumn
  | missingSeries (cols : List String)
deriving DecidableEq, Repr

/-- The mandatory time column name (`"Time(s)"` in `load_data`). -/
def timeCol : String := "Time(s)"

/-- Cell lookup: the coerced value of column `name` in `row`, `none` when the
column is absent or the cell failed coercion. -/
def getCell (cols : List String) (row : List (Option ℚ)) (name : String) : Option ℚ :=
  match List.findIdx? (fun c => c == name) cols with
  | none => none
  | some i => (row.get? i).getD none

/-- The coerced values of `row` at the configured series columns, `none` as
soon as any one of them is missing. -/
def seriesCells (cols : List String) (row : List (Option ℚ)) : List String → Option (List ℚ)
  | [] => some []
  | c :: rest =>
    match getCell cols row c, seriesCells cols row rest with
    | some v, some vs => some (v :: vs)
    | _, _ => none

/-- The row-wise `dropna(subset=columns_to_display + ["Time(s)"])` test of
`load_data`: a row survives iff its time cell and every configured series
cell are present, and then becomes a `Sample`. -/
def rowToSample (cols : List String) (display : List String) (row : List (Option ℚ)) :
    Option Sample :=
  match getCell cols row timeCol, seriesCells cols row display with
  | some t, some vs => some ⟨t, vs⟩
  | _, _ => none

/-- Embedding of `DynamicPlot.load_data` (lines 51-65): check the `"Time(s)"` column,
check the configured series columns, coerce to numeric and drop incomplete
rows.  Note: the source performs no emptiness check after `dropna`. -/
def load_data (display : List String) (tbl : RawTable) : Except LoadError (List Sample) :=
  if timeCol ∈ tbl.columns then
    let missing := display.filter (fun c => decide (c ∉ tbl.columns))
    if missing.isEmpty then
      Except.ok (tbl.rows.filterMap (rowToSample tbl.columns display))
    else
      Except.error (LoadError.missingSeries missing)
  else
    Except.error LoadError.missingTimeColumn

/-- Fixture: a table whose single data row has a time cell that fails
numeric coercion; `dropna` removes the row, leaving zero samples. -/
def tbl_unparsable_time : RawTable :=
  ⟨["Time(s)", "A"], [[none, some 1]]⟩

/-- Fixture: a table with no columns at all (both the time column and the
configured series are absent). -/
def tbl_no_columns : RawTable :=
  ⟨[], []⟩

/-- Fixture: a well-formed table with one complete data row. -/
def tbl_one_row : RawTable :=
  ⟨["Time(s)", "A"], [[some 1, some 2]]⟩

/-- Fixture: a table that has the time column and series `"B"` but not
series `"A"`. -/
def tbl_missing_series : RawTable :=
  ⟨["Time(s)", "B"], []⟩

/-! ### Scale selection and axis bounds (`plot_data`, lines 93-129) -/

/-- The Y-axis scale mode chosen by `plot_data`. -/
inductive ScaleMode where
  | linear
  | log
  | symlog (linthresh : ℚ)
deriving DecidableEq, Repr

/-- All values of the displayed columns across the cleaned dataframe
(`self.df[self.columns_to_display]` flattened). -/
def displayedVals (samples : List Sample) : List ℚ :=
  samples.foldr (fun s acc => s.vals ++ acc) []

/-- Embedding of `self.df[self.columns_to_display].lt(0).any().any()`: some displayed
value is strictly negative. -/
def hasNegative (samples : List Sample) : Bool :=
  samples.any (fun s => s.vals.any (fun v => decide (v < 0)))

/-- The `uses_symlog` flag of `plot_data`: log scale requested and a
strictly negative displayed value exists. -/
def usesSymlog (logScale : Bool) (samples : List Sample) : Bool :=
  logScale && hasNegative samples

/-- The scale-mode decision of `plot_data` lines 96-106: symlog with
`linthresh = 10` when log is requested and negatives exist, else log when
requested, else linear. -/
def selectScale (logScale : Bool) (samples : List Sample) : ScaleMode :=
  if usesSymlog logScale samples then ScaleMode.symlog 10
  else if logScale then ScaleMode.log
  else ScaleMode.linear

/-- Embedding of `self.df[self.columns_to_display].min().min()`; `none` on an empty
value set (pandas would give NaN). -/
def globalMin (samples : List Sample) : Option ℚ :=
  match displayedVals samples with
  | [] => none
  | v :: vs => some (vs.foldl min v)

/-- Embedding of `self.df[self.columns_to_display].max().max()`. -/
def globalMax (samples : List Sample) : Option ℚ :=
  match displayedVals samples with
  | [] => none
  | v :: vs => some (vs.foldl max v)

/-- The `set_ylim` arguments of `plot_data` lines 114-124: under symlog,
`(y_min * 1.1 if y_min < 0 else y_min * 0.9, y_max * 1.1)`; otherwise
`(y_min * 0.9, y_max * 1.1)`. -/
def yLimits (logScale : Bool) (samples : List Sample) : Option (ℚ × ℚ) :=
  match globalMin samples, globalMax samples with
  | some gmin, some gmax =>
    if usesSymlog logScale samples then
      some ((if gmin < 0 then gmin * (11/10) else gmin * (9/10)), gmax * (11/10))
    else
      some (gmin * (9/10), gmax * (11/10))
  | _, _ => none

/-- The time column of the cleaned dataframe. -/
def timesOf (samples : List Sample) : List ℚ :=
  samples.map Sample.time

/-- The `set_xlim` arguments of `plot_data` lines 127-129: the exact min and
max of `self.df["Time(s)"]`, no padding. -/
def xLimits (samples : List Sample) : Option (ℚ × ℚ) :=
  match timesOf samples with
  | [] => none
  | t :: ts => some (ts.foldl min t, ts.foldl max t)

/-! ### Label stripping and layout (`compute_max_label_length`, `make_row`) -/

/-- Scan for the first `')'`; `some` the remaining suffix.  A newline stops
the scan because `.` in Python's `re` does not match newlines, so a
candidate `\(.*?\)` match cannot cross one. -/
def splitAtClose : List Char → Option (List Char)
  | [] => none
  | c :: rest =>
    if c = ')' then some rest
    else if c = '\n' then none
    else splitAtClose rest

/-- Embedding of `re.sub` with pattern `\(.*?\)` on the character list: each leftmost
`'('` paired with the nearest following `')'` is deleted together with the
characters between them; a `'('` with no such `')'` is kept.  The fuel
argument only forces structural recursion; every step consumes at least one
character, so fuel `l.length` (as `stripParens` passes) is never exhausted. -/
def stripParensF : Nat → List Char → List Char
  | 0, _ => []
  | _, [] => []
  | fuel + 1, c :: rest =>
    if c = '(' then
      match splitAtClose rest with
      | some rest' => stripParensF fuel rest'
      | none => c :: stripParensF fuel rest
    else c :: stripParensF fuel rest

/-- The `re.sub(r'\(.*?\)', '', label)` deletion of parenthetical groups. -/
def stripParens (l : List Char) : List Char :=
  stripParensF l.length l

/-- The whitespace class of Python's `str.strip()` (ASCII part): space, tab,
newline, carriage return, vertical tab, form feed. -/
def isPySpace (c : Char) : Bool :=
  c == ' ' || c == '\t' || c == '\n' || c == '\r' || c == '\x0b' || c == '\x0c'

/-- Python `str.strip()`: drop leading and trailing whitespace. -/
def pyStrip (l : List Char) : List Char :=
  ((l.dropWhile isPySpace).reverse.dropWhile isPySpace).reverse

/-- Embedding of `re.sub(...).strip()` followed by the `" = "` suffix: the
display label of a raw series name (`make_row` lines 148-149 and
`compute_max_label_length` lines 35-36). -/
def labelText (l : String) : String :=
  String.mk (pyStrip (stripParens l.toList)) ++ " = "

/-- Python `str.ljust`: pad with spaces on the right up to `w`, never
truncate. -/
def ljust (s : String) (w : Nat) : String :=
  s ++ String.mk (List.replicate (w - s.length) ' ')

/-- Python right-justification as performed by a `:10.2f` format slot: pad
with spaces on the left up to `w`. -/
def rjust (s : String) (w : Nat) : String :=
  String.mk (List.replicate (w - s.length) ' ') ++ s

/-- Embedding of `DynamicPlot.compute_max_label_length` (lines 34-38): the longest
stripped-and-suffixed label over the configured series.  The source's
`max(...)` raises on an empty series list; the fold returns `0` there, a
case the program never exercises. -/
def compute_max_label_length (display : List String) : Nat :=
  (display.map (fun l => (labelText l).length)).foldl Nat.max 0

/-- The padded label of one annotation row (`make_row` lines 148-150):
stripped label, `" = "` suffix, left-justified to the width computed once
at build time. -/
def make_row_label (display : List String) (l : String) : String :=
  ljust (labelText l) (compute_max_label_length display)

/-! ### Value formatting (`format_value`, lines 133-138) -/

/-- Round half to even (the rounding Python's fixed-point float formatting
applies to the scaled value). -/
def roundHalfEven (q : ℚ) : ℤ :=
  let f := ⌊q⌋
  let r := q - f
  if r < 1/2 then f
  else if 1/2 < r then f + 1
  else if f % 2 = 0 then f else f + 1

/-- Zero-pad the digits of `n` on the left to `d` characters. -/
def zeroPad (d : Nat) (n : Nat) : String :=
  let s := toString n
  String.mk (List.replicate (d - s.length) '0') ++ s

/-- The text a Python `:10.Nf` format slot produces for value `v`: sign,
integer digits, point, exactly `d` fractional digits, right-aligned in a
10-character minimum field. -/
def pyFixed (v : ℚ) (d : Nat) : String :=
  let n := (roundHalfEven (|v| * (10 : ℚ) ^ d)).toNat
  rjust ((if v < 0 then "-" else "") ++ toString (n / 10 ^ d) ++ "." ++ zeroPad d (n % 10 ^ d)) 10

/-- Embedding of `DynamicPlot.format_value` (lines 133-138): format with the
`{value:10.{decimals}f}` slot, then `ljust` the result to `width`. -/
def format_value (v : ℚ) (width : Nat) (decimals : Nat) : String :=
  ljust (pyFixed v decimals) width

/-! ### Pointer handler (`on_mouse_move`, lines 216-247) -/

/-- Embedding of pandas `Series.idxmin` over a list: the position of the first occurrence of
the minimum, `none` on the empty list (pandas raises there). -/
def idxmin : List ℚ → Option Nat
  | [] => none
  | v :: rest =>
    match idxmin rest with
    | none => some 0
    | some j => if v ≤ rest.getD j 0 then some 0 else some (j + 1)

/-- Embedding of line 231, `(self.df["Time(s)"] - mouse_x).abs().idxmin()`. -/
def idx_closest (times : List ℚ) (x : ℚ) : Option Nat :=
  idxmin (times.map (fun t => |t - x|))

/-- The handler-visible state: the cleaned dataframe plus the mutable
rendering objects `on_mouse_move` touches (annotation-box visibility,
vertical-line visibility and position, the value-slot texts). -/
structure PlotState where
  samples : List Sample
  boxVisible : Bool
  lineVisible : Bool
  lineX : ℚ
  valueTexts : List String
deriving DecidableEq, Repr

/-- A `motion_notify_event`: whether `event.inaxes` is this plot's axes, and
`event.xdata` (`none` when matplotlib reports no data coordinate). -/
structure MouseEvent where
  inAxes : Bool
  xdata : Option ℚ
deriving DecidableEq, Repr

/-- Embedding of `DynamicPlot.on_mouse_move` (lines 216-247) as a state transition.
Outside the axes or without an x coordinate, hide the box and the line and
leave everything else untouched.  Otherwise snap to the nearest sample:
`idxmin` of the absolute time differences, marker at that sample's stored
time, every value slot rewritten with `format_value(value, width=1,
decimals=2)`, box visible.  `none` models the `ValueError` pandas raises
from `idxmin` on an empty dataframe. -/
def on_mouse_move (st : PlotState) (e : MouseEvent) : Option PlotState :=
  if !e.inAxes then
    some { st with boxVisible := false, lineVisible := false }
  else
    match e.xdata with
    | none => some { st with boxVisible := false, lineVisible := false }
    | some x =>
      match idx_closest (timesOf st.samples) x with
      | none => none
      | some i =>
        match st.samples.get? i with
        | none => none
        | some row =>
          some { st with
            lineX := row.time,
            lineVisible := true,
            valueTexts := row.vals.map (fun v => format_value v 1 2),
            boxVisible := true }

/-! ### Helper lemmas -/

theorem idxmin_ne_none (l : List ℚ) (h : l ≠ []) : ∃ i, idxmin l = some i := by
  cases l with
  | nil => exact absurd rfl h
  | cons v rest =>
    simp only [idxmin]
    cases idxmin rest with
    | none => exact ⟨0, rfl⟩
    | some j =>
      by_cases hle : v ≤ rest.getD j 0
      · refine ⟨0, ?_⟩
        show (if v ≤ rest.getD j 0 then some 0 else some (j + 1) : Option Nat) = some 0
        rw [if_pos hle]
      · refine ⟨j + 1, ?_⟩
        show (if v ≤ rest.getD j 0 then some 0 else some (j + 1) : Option Nat) = some (j + 1)
        rw [if_neg hle]

theorem idxmin_none_eq_nil (l : List ℚ) (h : idxmin l = none) : l = [] := by
  cases l with
  | nil => rfl
  | cons v rest =>
    exfalso
    rcases idxmin_ne_none (v :: rest) (by simp) with ⟨i, hi⟩
    rw [hi] at h
    exact Option.noConfusion h

/-- The `idxmin` result is a valid position of a minimal element, and every
earlier position holds a strictly larger value (first-occurrence
tie-break). -/
theorem idxmin_spec : ∀ (l : List ℚ) (i : Nat), idxmin l = some i →
    i < l.length ∧ (∀ j, j < l.length → l.getD i 0 ≤ l.getD j 0) ∧
    (∀ j, j < i → l.getD i 0 < l.getD j 0) := by
  intro l
  induction l with
  | nil => intro i h; simp [idxmin] at h
  | cons v rest ih =>
    intro i h
    cases hr : idxmin rest with
    | none =>
      simp only [idxmin, hr] at h
      have hrest : rest = [] := idxmin_none_eq_nil rest hr
      subst hrest
      injection h with h0
      subst h0
      refine ⟨by simp, ?_, ?_⟩
      · intro j hj
        have : j = 0 := by simpa using hj
        subst this
        exact le_refl _
      · intro j hj
        exact absurd hj (Nat.not_lt_zero j)
    | some j =>
      simp only [idxmin, hr] at h
      obtain ⟨hjlt, hjmin, hjfirst⟩ := ih j hr
      by_cases hle : v ≤ rest.getD j 0
      · rw [if_pos hle] at h
        injection h with h0
        subst h0
        refine ⟨Nat.succ_pos _, ?_, ?_⟩
        · intro j' hj'
          cases j' with
          | zero => simp
          | succ k =>
            rw [List.getD_cons_zero, List.getD_cons_succ]
            exact le_trans hle (hjmin k (Nat.lt_of_succ_lt_succ hj'))
        · intro j' hj'
          exact absurd hj' (Nat.not_lt_zero j')
      · rw [if_neg hle] at h
        injection h with h0
        subst h0
        push_neg at hle
        refine ⟨Nat.succ_lt_succ hjlt, ?_, ?_⟩
        · intro j' hj'
          cases j' with
          | zero =>
            rw [List.getD_cons_succ, List.getD_cons_zero]
            exact le_of_lt hle
          | succ k =>
            rw [List.getD_cons_succ, List.getD_cons_succ]
            exact hjmin k (Nat.lt_of_succ_lt_succ hj')
        · intro j' hj'
          cases j' with
          | zero =>
            rw [List.getD_cons_succ, List.getD_cons_zero]
            exact hle
          | succ k =>
            rw [List.getD_cons_succ, List.getD_cons_succ]
            exact hjfirst k (Nat.lt_of_succ_lt_succ hj')

theorem getD_map_of_lt (f : ℚ → ℚ) : ∀ (l : List ℚ) (j : Nat), j < l.length →
    ∀ d d' : ℚ, (l.map f).getD j d = f (l.getD j d') := by
  intro l
  induction l with
  | nil => intro j hj; simp at hj
  | cons v rest ih =>
    intro j hj d d'
    cases j with
    | zero => simp
    | succ k =>
      simp only [List.map_cons, List.getD_cons_succ]
      exact ih k (Nat.lt_of_succ_lt_succ hj) d d'

theorem getD_timesOf (samples : List Sample) (i : Nat) (row : Sample)
    (h : samples.get? i = some row) : (timesOf samples).getD i 0 = row.time := by
  have h1 : (timesOf samples)[i]? = some row.time := by
    rw [timesOf, List.getElem?_map, ← List.get?_eq_getElem?, h]
    rfl
  rw [List.getD_eq_getElem?_getD, h1]
  rfl

theorem foldl_min_le_init : ∀ (l : List ℚ) (a : ℚ), l.foldl min a ≤ a := by
  intro l
  induction l with
  | nil => intro a; exact le_refl a
  | cons v rest ih =>
    intro a
    calc rest.foldl min (min a v) ≤ min a v := ih (min a v)
    _ ≤ a := min_le_left a v

theorem foldl_min_le_mem : ∀ (l : List ℚ) (a v : ℚ), v ∈ l → l.foldl min a ≤ v := by
  intro l
  induction l with
  | nil => intro a v hv; exact absurd hv (List.not_mem_nil v)
  | cons w rest ih =>
    intro a v hv
    rcases List.mem_cons.mp hv with h | h
    · subst h
      calc rest.foldl min (min a v) ≤ min a v := foldl_min_le_init rest (min a v)
      _ ≤ v := min_le_right a v
    · exact ih (min a w) v h

theorem foldl_min_mem : ∀ (l : List ℚ) (a : ℚ), l.foldl min a = a ∨ l.foldl min a ∈ l := by
  intro l
  induction l with
  | nil => intro a; exact Or.inl rfl
  | cons v rest ih =>
    intro a
    rcases ih (min a v) with h | h
    · rcases min_choice a v with hm | hm
      · exact Or.inl (by rw [List.foldl_cons, h, hm])
      · refine Or.inr ?_
        rw [List.foldl_cons, h, hm]
        exact List.mem_cons_self v rest
    · exact Or.inr (List.mem_cons_of_mem v h)

theorem foldl_max_le_init : ∀ (l : List ℚ) (a : ℚ), a ≤ l.foldl max a := by
  intro l
  induction l with
  | nil => intro a; exact le_refl a
  | cons v rest ih =>
    intro a
    calc a ≤ max a v := le_max_left a v
    _ ≤ rest.foldl max (max a v) := ih (max a v)

theorem foldl_max_le_mem : ∀ (l : List ℚ) (a v : ℚ), v ∈ l → v ≤ l.foldl max a := by
  intro l
  induction l with
  | nil => intro a v hv; exact absurd hv (List.not_mem_nil v)
  | cons w rest ih =>
    intro a v hv
    rcases List.mem_cons.mp hv with h | h
    · subst h
      calc v ≤ max a v := le_max_right a v
      _ ≤ rest.foldl max (max a v) := foldl_max_le_init rest (max a v)
    · exact ih (max a w) v h

theorem foldl_max_mem : ∀ (l : List ℚ) (a : ℚ), l.foldl max a = a ∨ l.foldl max a ∈ l := by
  intro l
  induction l with
  | nil => intro a; exact Or.inl rfl
  | cons v rest ih =>
    intro a
    rcases ih (max a v) with h | h
    · rcases max_choice a v with hm | hm
      · exact Or.inl (by rw [List.foldl_cons, h, hm])
      · refine Or.inr ?_
        rw [List.foldl_cons, h, hm]
        exact List.mem_cons_self v rest
    · exact Or.inr (List.mem_cons_of_mem v h)

theorem nat_foldl_max_init : ∀ (l : List Nat) (a : Nat), a ≤ l.foldl Nat.max a := by
  intro l
  induction l with
  | nil => intro a; exact Nat.le_refl a
  | cons v rest ih =>
    intro a
    exact Nat.le_trans (Nat.le_max_left a v) (ih (Nat.max a v))

theorem nat_foldl_max_mem : ∀ (l : List Nat) (a v : Nat), v ∈ l → v ≤ l.foldl Nat.max a := by
  intro l
  induction l with
  | nil => intro a v hv; exact absurd hv (List.not_mem_nil v)
  | cons w rest ih =>
    intro a v hv
    rcases List.mem_cons.mp hv with h | h
    · subst h
      exact Nat.le_trans (Nat.le_max_right a v) (nat_foldl_max_init rest (Nat.max a v))
    · exact ih (Nat.max a w) v h

theorem length_mk (l : List Char) : (String.mk l).length = l.length := rfl

theorem str_length_append (s t : String) : (s ++ t).length = s.length + t.length := by
  cases s with
  | mk d =>
    cases t with
    | mk d' =>
      show (String.mk (d ++ d')).length = d.length + d'.length
      rw [length_mk, List.length_append]

theorem str_append_empty (s : String) : s ++ String.mk [] = s := by
  cases s with
  | mk d =>
    show String.mk (d ++ []) = String.mk d
    rw [List.append_nil]

theorem ljust_length (s : String) (w : Nat) :
    (ljust s w).length = s.length + (w - s.length) := by
  simp [ljust, str_length_append, length_mk]

theorem ljust_of_ge (s : String) (w : Nat) (h : w ≤ s.length) : ljust s w = s := by
  rw [ljust, Nat.sub_eq_zero_of_le h]
  exact str_append_empty s

theorem rjust_length (s : String) (w : Nat) :
    (rjust s w).length = (w - s.length) + s.length := by
  simp [rjust, str_length_append, length_mk]

theorem pyFixed_length (v : ℚ) (d : Nat) : 10 ≤ (pyFixed v d).length := by
  rw [pyFixed]
  rw [rjust_length]
  omega

theorem seriesCells_spec (cols : List String) (row : List (Option ℚ)) :
    ∀ (display : List String) (vs : List ℚ), seriesCells cols row display = some vs →
      vs.length = display.length ∧
      ∀ k, k < display.length → getCell cols row (display.getD k "") = some (vs.getD k 0) := by
  intro display
  induction display with
  | nil =>
    intro vs h
    simp only [seriesCells] at h
    injection h with h0
    subst h0
    exact ⟨rfl, fun k hk => absurd hk (Nat.not_lt_zero k)⟩
  | cons c rest ih =>
    intro vs h
    simp only [seriesCells] at h
    cases hg : getCell cols row c with
    | none => rw [hg] at h; exact absurd h (by simp)
    | some v =>
      rw [hg] at h
      cases hs : seriesCells cols row rest with
      | none => rw [hs] at h; exact absurd h (by simp)
      | some ws =>
        rw [hs] at h
        injection h with h0
        subst h0
        obtain ⟨hlen, hcells⟩ := ih ws hs
        refine ⟨by simp [hlen], ?_⟩
        intro k hk
        cases k with
        | zero => simpa using hg
        | succ k' =>
          rw [List.getD_cons_succ, List.getD_cons_succ]
          exact hcells k' (Nat.lt_of_succ_lt_succ hk)

theorem rowToSample_spec (cols display : List String) (row : List (Option ℚ)) (s : Sample)
    (h : rowToSample cols display row = some s) :
    getCell cols row timeCol = some s.time ∧ seriesCells cols row display = some s.vals := by
  rw [rowToSample] at h
  cases ht : getCell cols row timeCol with
  | none => rw [ht] at h; exact absurd h (by simp)
  | some t =>
    rw [ht] at h
    cases hs : seriesCells cols row display with
    | none => rw [hs] at h; exact absurd h (by simp)
    | some vs =>
      rw [hs] at h
      injection h with h0
      subst h0
      exact ⟨rfl, rfl⟩

theorem load_data_ok_inv (display : List String) (tbl : RawTable) (samples : List Sample)
    (h : load_data display tbl = Except.ok samples) :
    samples = tbl.rows.filterMap (rowToSample tbl.columns display) := by
  rw [load_data] at h
  by_cases ht : timeCol ∈ tbl.columns
  · rw [if_pos ht] at h
    by_cases hm : (display.filter (fun c => decide (c ∉ tbl.columns))).isEmpty
    · simp only [hm, if_true] at h
      injection h with h0
      exact h0.symm
    · simp only [hm, if_false] at h
      exact absurd h (by simp)
  · rw [if_neg ht] at h
    exact absurd h (by simp)

theorem hasNegative_iff (samples : List Sample) :
    hasNegative samples = true ↔ ∃ s ∈ samples, ∃ v ∈ s.vals, v < 0 := by
  simp [hasNegative, List.any_eq_true]

theorem hasNegative_false (samples : List Sample) (h : ¬ hasNegative samples = true) :
    hasNegative samples = false := by
  cases h2 : hasNegative samples
  · rfl
  · exact absurd h2 h

/-! ### Claim theorems -/

/-- C2: the scale-mode decision over the union of all displayed values is:
SymLog with linear threshold 10 when log scale is requested and some
displayed value is strictly negative; Log when log scale is requested and no
displayed value is negative; Linear when log scale is not requested; no
other linthresh than 10 ever occurs; and the spec example `values 5, 3, 10
with log requested yields Log` holds. -/
theorem scale_mode_decision (logScale : Bool) (samples : List Sample) :
    (selectScale logScale samples = ScaleMode.symlog 10 ↔
      logScale = true ∧ ∃ s ∈ samples, ∃ v ∈ s.vals, v < 0) ∧
    (selectScale logScale samples = ScaleMode.log ↔
      logScale = true ∧ ¬ ∃ s ∈ samples, ∃ v ∈ s.vals, v < 0) ∧
    (selectScale logScale samples = ScaleMode.linear ↔ logScale = false) ∧
    (∀ c : ℚ, selectScale logScale samples = ScaleMode.symlog c → c = 10) ∧
    selectScale true [⟨0, [5, 3, 10]⟩] = ScaleMode.log := by
  have hneg := hasNegative_iff samples
  have hcon : selectScale true [⟨0, [5, 3, 10]⟩] = ScaleMode.log := by decide
  cases logScale with
  | false =>
    refine ⟨?_, ?_, ?_, ?_, hcon⟩
    · simp [selectScale, usesSymlog]
    · simp [selectScale, usesSymlog]
    · simp [selectScale, usesSymlog]
    · intro c hc
      simp [selectScale, usesSymlog] at hc
  | true =>
    by_cases hb : hasNegative samples = true
    · refine ⟨?_, ?_, ?_, ?_, hcon⟩
      · constructor
        · intro _
          exact ⟨rfl, hneg.mp hb⟩
        · intro _
          simp [selectScale, usesSymlog, hb]
      · constructor
        · intro h
          simp [selectScale, usesSymlog, hb] at h
        · rintro ⟨-, hn⟩
          exact absurd (hneg.mp hb) hn
      · constructor
        · intro h
          simp [selectScale, usesSymlog, hb] at h
        · intro h
          cases h
      · intro c hc
        simp [selectScale, usesSymlog, hb] at hc
        exact hc.symm
    · have hb' := hasNegative_false samples hb
      refine ⟨?_, ?_, ?_, ?_, hcon⟩
      · constructor
        · intro h
          simp [selectScale, usesSymlog, hb'] at h
        · rintro ⟨-, hn⟩
          exact absurd (hneg.mpr hn) hb
      · constructor
        · intro _
          refine ⟨rfl, fun hn => absurd (hneg.mpr hn) hb⟩
        · intro _
          simp [selectScale, usesSymlog, hb']
      · constructor
        · intro h
          simp [selectScale, usesSymlog, hb'] at h
        · intro h
          cases h
      · intro c hc
        simp [selectScale, usesSymlog, hb'] at hc

/-- C3 counterexample: a table whose only row has an uncoercible time cell.
Cleaning drops every row, yet `load_data` succeeds and returns an empty
dataset — no `EmptyAfterCleaning` failure exists in the code, refuting the
claim that loading fails whenever zero samples remain. -/
theorem load_data_empty_after_cleaning_cx :
    load_data ["A"] tbl_unparsable_time = Except.ok [] := rfl

/-- C3 amended: once the time-column and series-column checks pass,
`load_data` always succeeds and returns the row-wise-cleaned dataset, even
when cleaning removed every row; the loader performs no emptiness check and
a successfully constructed session may hold an empty dataset. -/
theorem load_data_total_after_column_checks (display : List String) (tbl : RawTable)
    (ht : timeCol ∈ tbl.columns) (hm : ∀ c ∈ display, c ∈ tbl.columns) :
    load_data display tbl =
      Except.ok (tbl.rows.filterMap (rowToSample tbl.columns display)) := by
  have hfil : display.filter (fun c => decide (c ∉ tbl.columns)) = [] := by
    rw [List.filter_eq_nil_iff]
    intro c hc
    simp [hm c hc]
  rw [load_data, if_pos ht]
  simp only [hfil, List.isEmpty_nil, if_true]

/-- C3 witness: a concrete table passing the column checks loads
successfully into its cleaned rows. -/
theorem load_data_total_after_column_checks_witness :
    load_data ["A"] tbl_one_row =
      Except.ok (tbl_one_row.rows.filterMap (rowToSample tbl_one_row.columns ["A"])) :=
  load_data_total_after_column_checks ["A"] tbl_one_row (by decide) (by decide)

/-- C7 counterexample: series `"A"` is absent from a table that also lacks
the time column; loading fails with the missing-time-column error, not with
`MissingSeries ["A"]` — the time-column check preempts the series check. -/
theorem missing_series_preempted_cx :
    "A" ∉ tbl_no_columns.columns ∧
    load_data ["A"] tbl_no_columns = Except.error LoadError.missingTimeColumn :=
  ⟨by decide, rfl⟩

/-- C7 amended: when the mandatory time column is present and at least one
configured series column is absent, loading fails with `MissingSeries`
naming exactly the absent configured columns and no others, in the
configured order (the filtered list is a sublist of the configured list). -/
theorem missing_series_exact_order (display : List String) (tbl : RawTable)
    (ht : timeCol ∈ tbl.columns) (c₀ : String) (hc₀ : c₀ ∈ display)
    (hc₀m : c₀ ∉ tbl.columns) :
    load_data display tbl = Except.error (LoadError.missingSeries
      (display.filter (fun c => decide (c ∉ tbl.columns)))) ∧
    (∀ c, c ∈ display.filter (fun c => decide (c ∉ tbl.columns)) ↔
      c ∈ display ∧ c ∉ tbl.columns) ∧
    (display.filter (fun c => decide (c ∉ tbl.columns))).Sublist display := by
  have hmem : c₀ ∈ display.filter (fun c => decide (c ∉ tbl.columns)) := by
    rw [List.mem_filter]
    exact ⟨hc₀, by simp [hc₀m]⟩
  have hne : (display.filter (fun c => decide (c ∉ tbl.columns))).isEmpty = false := by
    cases hfe : (display.filter (fun c => decide (c ∉ tbl.columns))).isEmpty
    · rfl
    · rw [List.isEmpty_iff] at hfe
      rw [hfe] at hmem
      exact absurd hmem (List.not_mem_nil c₀)
  refine ⟨?_, ?_, List.filter_sublist display⟩
  · rw [load_data, if_pos ht]
    simp [hne]
    exact ⟨c₀, hc₀, hc₀m⟩
  · intro c
    rw [List.mem_filter]
    simp

/-- C7 witness: with the time column present and `"A"` configured but
absent, loading fails with `MissingSeries ["A"]`. -/
theorem missing_series_exact_order_witness :
    load_data ["A", "B"] tbl_missing_series =
      Except.error (LoadError.missingSeries ["A"]) ∧
    ("A" ∈ (["A"] : List String) ↔ "A" ∈ ["A", "B"] ∧ "A" ∉ tbl_missing_series.columns) :=
  ⟨(missing_series_exact_order ["A", "B"] tbl_missing_series (by decide) "A" (by decide)
      (by decide)).1,
   (missing_series_exact_order ["A", "B"] tbl_missing_series (by decide) "A" (by decide)
      (by decide)).2.1 "A"⟩

theorem on_mouse_move_samples_eq (st : PlotState) (e : MouseEvent) (st' : PlotState)
    (h : on_mouse_move st e = some st') : st'.samples = st.samples := by
  unfold on_mouse_move at h
  split at h
  · injection h with h0
    rw [← h0]
  · split at h
    · injection h with h0
      rw [← h0]
    · split at h
      · exact Option.noConfusion h
      · split at h
        · exact Option.noConfusion h
        · injection h with h0
          rw [← h0]

theorem on_mouse_move_hide (st : PlotState) (e : MouseEvent)
    (h : e.inAxes = false ∨ e.xdata = none) :
    on_mouse_move st e = some { st with boxVisible := false, lineVisible := false } := by
  obtain ⟨inax, xd⟩ := e
  rcases h with h | h
  · have h0 : inax = false := h
    subst h0
    simp [on_mouse_move]
  · have h0 : xd = none := h
    subst h0
    cases inax <;> simp [on_mouse_move]

/-- C9: on a pointer-move event outside the plotting region or without a
resolvable time coordinate, the handler hides the annotation box and the
vertical marker and changes nothing else (value texts, marker position and
dataset are retained); moreover no handler invocation whatsoever modifies
the dataset. -/
theorem pointer_leave_hides_only (st : PlotState) (e : MouseEvent)
    (h : e.inAxes = false ∨ e.xdata = none)
    (st₂ : PlotState) (e₂ : MouseEvent) (st₂' : PlotState)
    (h₂ : on_mouse_move st₂ e₂ = some st₂') :
    on_mouse_move st e = some { st with boxVisible := false, lineVisible := false } ∧
    st₂'.samples = st₂.samples :=
  ⟨on_mouse_move_hide st e h, on_mouse_move_samples_eq st₂ e₂ st₂' h₂⟩

/-- C9 witness: a concrete off-axes event hides the panel and marker while
keeping the value texts, and a concrete successful invocation keeps the
dataset. -/
theorem pointer_leave_hides_only_witness :
    on_mouse_move ⟨[⟨1, [2]⟩], true, true, 5, ["x"]⟩ ⟨false, none⟩ =
      some ⟨[⟨1, [2]⟩], false, false, 5, ["x"]⟩ ∧
    (PlotState.mk [⟨1, [2]⟩] false false 0 [""]).samples =
      (PlotState.mk [⟨1, [2]⟩] true true 0 [""]).samples :=
  pointer_leave_hides_only ⟨[⟨1, [2]⟩], true, true, 5, ["x"]⟩ ⟨false, none⟩ (Or.inl rfl)
    ⟨[⟨1, [2]⟩], true, true, 0, [""]⟩ ⟨false, none⟩ ⟨[⟨1, [2]⟩], false, false, 0, [""]⟩ rfl

/-- C1: for a pointer-move event inside the axes with a resolvable time
coordinate over a non-empty dataset, the handler picks the nearest index:
a valid index whose sample time minimises the absolute distance to the
cursor time over the full dataset, with every strictly earlier index
strictly farther (lowest-index tie-break), and sets the vertical marker to
that sample's stored time; on times `0, 1, 2` a cursor at `1.4` selects
index 1 and a cursor at `1.5` (exact tie) also selects index 1. -/
theorem nearest_sample_snap (st : PlotState) (x : ℚ) (h : st.samples ≠ []) :
    ∃ i row,
      idx_closest (timesOf st.samples) x = some i ∧
      i < st.samples.length ∧
      st.samples.get? i = some row ∧
      on_mouse_move st ⟨true, some x⟩ = some
        { st with
          lineX := row.time,
          lineVisible := true,
          valueTexts := row.vals.map (fun v => format_value v 1 2),
          boxVisible := true } ∧
      (∀ j, j < st.samples.length →
        |row.time - x| ≤ |(timesOf st.samples).getD j 0 - x|) ∧
      (∀ j, j < i → |row.time - x| < |(timesOf st.samples).getD j 0 - x|) ∧
      idx_closest [0, 1, 2] (7/5) = some 1 ∧
      idx_closest [0, 1, 2] (3/2) = some 1 := by
  have hts : (timesOf st.samples).length = st.samples.length := List.length_map _ _
  have htsne : timesOf st.samples ≠ [] := by
    intro h0
    exact h (List.map_eq_nil_iff.mp h0)
  have hdne : (timesOf st.samples).map (fun t => |t - x|) ≠ [] := by
    intro h0
    exact htsne (List.map_eq_nil_iff.mp h0)
  obtain ⟨i, hi⟩ := idxmin_ne_none _ hdne
  have hidx : idx_closest (timesOf st.samples) x = some i := hi
  obtain ⟨hlt, hmin, hfirst⟩ := idxmin_spec _ i hi
  have hits : i < (timesOf st.samples).length := by
    rw [List.length_map] at hlt
    exact hlt
  have hislt : i < st.samples.length := by
    rw [← hts]
    exact hits
  obtain ⟨row, hrow⟩ : ∃ row, st.samples.get? i = some row := by
    rw [List.get?_eq_get hislt]
    exact ⟨_, rfl⟩
  have hrt : (timesOf st.samples).getD i 0 = row.time := getD_timesOf _ _ _ hrow
  have hmove : on_mouse_move st ⟨true, some x⟩ = some
      { st with
        lineX := row.time,
        lineVisible := true,
        valueTexts := row.vals.map (fun v => format_value v 1 2),
        boxVisible := true } := by
    simp only [on_mouse_move, Bool.not_true, Bool.false_eq_true, if_false, hidx, hrow]
  refine ⟨i, row, hidx, hislt, hrow, hmove, ?_, ?_, ?_, ?_⟩
  · intro j hj
    have hjts : j < (timesOf st.samples).length := by
      rw [hts]
      exact hj
    have hjd : j < ((timesOf st.samples).map (fun t => |t - x|)).length := by
      rw [List.length_map]
      exact hjts
    have hle := hmin j hjd
    rw [getD_map_of_lt _ _ i hits 0 0, getD_map_of_lt _ _ j hjts 0 0, hrt] at hle
    exact hle
  · intro j hj
    have hjts : j < (timesOf st.samples).length := lt_trans hj hits
    have hlt2 := hfirst j hj
    rw [getD_map_of_lt _ _ i hits 0 0, getD_map_of_lt _ _ j hjts 0 0, hrt] at hlt2
    exact hlt2
  · simp only [idx_closest, List.map, idxmin, List.getD, List.get?]
    norm_num [abs]
  · simp only [idx_closest, List.map, idxmin, List.getD, List.get?]
    norm_num [abs]

/-- C1 witness: the nearest-sample lookup at a concrete one-sample state. -/
theorem nearest_sample_snap_witness :
    ∃ i row,
      idx_closest (timesOf [⟨0, [5]⟩]) 0 = some i ∧
      i < ([⟨0, [5]⟩] : List Sample).length ∧
      ([⟨0, [5]⟩] : List Sample).get? i = some row ∧
      on_mouse_move ⟨[⟨0, [5]⟩], false, false, 0, [""]⟩ ⟨true, some 0⟩ = some
        { PlotState.mk [⟨0, [5]⟩] false false 0 [""] with
          lineX := row.time,
          lineVisible := true,
          valueTexts := row.vals.map (fun v => format_value v 1 2),
          boxVisible := true } ∧
      (∀ j, j < ([⟨0, [5]⟩] : List Sample).length →
        |row.time - 0| ≤ |(timesOf [⟨0, [5]⟩]).getD j 0 - 0|) ∧
      (∀ j, j < i → |row.time - 0| < |(timesOf [⟨0, [5]⟩]).getD j 0 - 0|) ∧
      idx_closest [0, 1, 2] (7/5) = some 1 ∧
      idx_closest [0, 1, 2] (3/2) = some 1 :=
  nearest_sample_snap ⟨[⟨0, [5]⟩], false, false, 0, [""]⟩ 0 (by decide)

/-- C10: whenever the cleaned dataset is non-empty, the nearest-index
lookup returns a valid index, the row access succeeds and the handler
produces a state; but the loader itself never establishes non-emptiness —
a concrete table passes `load_data` with an empty cleaned dataset, and on
that dataset the handler's lookup fails (the pandas `idxmin` error branch
is reachable from a successfully constructed instance). -/
theorem nearest_lookup_needs_nonempty (st : PlotState) (x : ℚ) (h : st.samples ≠ []) :
    (∃ i row, idx_closest (timesOf st.samples) x = some i ∧
      st.samples.get? i = some row) ∧
    (on_mouse_move st ⟨true, some x⟩).isSome = true ∧
    load_data ["A"] tbl_unparsable_time = Except.ok [] ∧
    on_mouse_move ⟨[], false, false, 0, []⟩ ⟨true, some x⟩ = none := by
  have htsne : timesOf st.samples ≠ [] := by
    intro h0
    exact h (List.map_eq_nil_iff.mp h0)
  have hdne : (timesOf st.samples).map (fun t => |t - x|) ≠ [] := by
    intro h0
    exact htsne (List.map_eq_nil_iff.mp h0)
  obtain ⟨i, hi⟩ := idxmin_ne_none _ hdne
  have hidx : idx_closest (timesOf st.samples) x = some i := hi
  obtain ⟨hlt, -, -⟩ := idxmin_spec _ i hi
  have hislt : i < st.samples.length := by
    rw [List.length_map, timesOf, List.length_map] at hlt
    exact hlt
  obtain ⟨row, hrow⟩ : ∃ row, st.samples.get? i = some row := by
    rw [List.get?_eq_get hislt]
    exact ⟨_, rfl⟩
  refine ⟨⟨i, row, hidx, hrow⟩, ?_, rfl, rfl⟩
  simp only [on_mouse_move, Bool.not_true, Bool.false_eq_true, if_false, hidx, hrow]
  rfl

/-- C10 witness: the lookup succeeds on a concrete one-sample state. -/
theorem nearest_lookup_needs_nonempty_witness :
    (∃ i row, idx_closest (timesOf [⟨0, [5]⟩]) 0 = some i ∧
      ([⟨0, [5]⟩] : List Sample).get? i = some row) ∧
    (on_mouse_move ⟨[⟨0, [5]⟩], false, false, 0, [""]⟩ ⟨true, some 0⟩).isSome = true ∧
    load_data ["A"] tbl_unparsable_time = Except.ok [] ∧
    on_mouse_move ⟨[], false, false, 0, []⟩ ⟨true, some 0⟩ = none :=
  nearest_lookup_needs_nonempty ⟨[⟨0, [5]⟩], false, false, 0, [""]⟩ 0 (by decide)

/-- C4: every sample surviving the loader is the image of a table row whose
time cell and every configured series cell coerced successfully; the sample
carries exactly one value per configured series and each value equals the
coerced cell of the matching column — no missing value remains in the time
column or any configured series column. -/
theorem loaded_samples_complete (display : List String) (tbl : RawTable)
    (samples : List Sample) (h : load_data display tbl = Except.ok samples)
    (s : Sample) (hs : s ∈ samples) :
    ∃ row ∈ tbl.rows,
      rowToSample tbl.columns display row = some s ∧
      getCell tbl.columns row timeCol = some s.time ∧
      s.vals.length = display.length ∧
      ∀ k, k < display.length →
        getCell tbl.columns row (display.getD k "") = some (s.vals.getD k 0) := by
  have hsm := load_data_ok_inv display tbl samples h
  rw [hsm] at hs
  obtain ⟨row, hrowmem, hrow⟩ := List.mem_filterMap.mp hs
  obtain ⟨htime, hcells⟩ := rowToSample_spec tbl.columns display row s hrow
  obtain ⟨hlen, hget⟩ := seriesCells_spec tbl.columns row display s.vals hcells
  exact ⟨row, hrowmem, hrow, htime, hlen, hget⟩

/-- C4 witness: the single loaded sample of a concrete table has complete
data drawn from its source row. -/
theorem loaded_samples_complete_witness :
    ∃ row ∈ tbl_one_row.rows,
      rowToSample tbl_one_row.columns ["A"] row = some ⟨1, [2]⟩ ∧
      getCell tbl_one_row.columns row timeCol = some (Sample.mk 1 [2]).time ∧
      (Sample.mk 1 [2]).vals.length = (["A"] : List String).length ∧
      ∀ k, k < (["A"] : List String).length →
        getCell tbl_one_row.columns row ((["A"] : List String).getD k "") =
          some ((Sample.mk 1 [2]).vals.getD k 0) :=
  loaded_samples_complete ["A"] tbl_one_row [⟨1, [2]⟩] rfl ⟨1, [2]⟩ (by decide)

/-- C5: with `gmin`/`gmax` the computed global minimum and maximum of all
displayed values (they bound every displayed value and are themselves
attained), the Y-limits are `(gmin * 1.1 if gmin < 0 else gmin * 0.9,
gmax * 1.1)` under SymLog and `(gmin * 0.9, gmax * 1.1)` otherwise; the
X-limits are the exact min and max of the time column with no padding; and
values `5, -3, 10` under requested log scale give `(-3.3, 11.0)`. -/
theorem axis_bounds_formulas (logScale : Bool) (samples : List Sample) (gmin gmax : ℚ)
    (hmin : globalMin samples = some gmin) (hmax : globalMax samples = some gmax) :
    yLimits logScale samples = some
      ((if usesSymlog logScale samples then
          (if gmin < 0 then gmin * (11/10) else gmin * (9/10))
        else gmin * (9/10)), gmax * (11/10)) ∧
    (∀ u ∈ displayedVals samples, gmin ≤ u ∧ u ≤ gmax) ∧
    gmin ∈ displayedVals samples ∧ gmax ∈ displayedVals samples ∧
    (∀ t ts, timesOf samples = t :: ts →
      xLimits samples = some (ts.foldl min t, ts.foldl max t) ∧
      (∀ u ∈ timesOf samples, ts.foldl min t ≤ u ∧ u ≤ ts.foldl max t) ∧
      ts.foldl min t ∈ timesOf samples ∧ ts.foldl max t ∈ timesOf samples) ∧
    yLimits true [⟨0, [5, -3, 10]⟩] = some (-33/10, 11) := by
  have hx : ∀ t ts, timesOf samples = t :: ts →
      xLimits samples = some (ts.foldl min t, ts.foldl max t) ∧
      (∀ u ∈ timesOf samples, ts.foldl min t ≤ u ∧ u ≤ ts.foldl max t) ∧
      ts.foldl min t ∈ timesOf samples ∧ ts.foldl max t ∈ timesOf samples := by
    intro t ts hts
    refine ⟨by simp only [xLimits, hts], ?_, ?_, ?_⟩
    · intro u hu
      rw [hts] at hu
      rcases List.mem_cons.mp hu with h0 | h0
      · subst h0
        exact ⟨foldl_min_le_init ts u, foldl_max_le_init ts u⟩
      · exact ⟨foldl_min_le_mem ts t u h0, foldl_max_le_mem ts t u h0⟩
    · rw [hts]
      rcases foldl_min_mem ts t with h0 | h0
      · rw [h0]
        exact List.mem_cons_self t ts
      · exact List.mem_cons_of_mem t h0
    · rw [hts]
      rcases foldl_max_mem ts t with h0 | h0
      · rw [h0]
        exact List.mem_cons_self t ts
      · exact List.mem_cons_of_mem t h0
  have hcon : yLimits true [⟨0, [5, -3, 10]⟩] = some (-33/10, 11) := by
    norm_num [yLimits, globalMin, globalMax, displayedVals, usesSymlog, hasNegative]
  cases hd : displayedVals samples with
  | nil =>
    simp only [globalMin, hd] at hmin
    exact absurd hmin (by simp)
  | cons v vs =>
    simp only [globalMin, hd] at hmin
    simp only [globalMax, hd] at hmax
    injection hmin with hmin0
    injection hmax with hmax0
    subst hmin0
    subst hmax0
    refine ⟨?_, ?_, ?_, ?_, hx, hcon⟩
    · simp only [yLimits, globalMin, globalMax, hd]
      by_cases husl : usesSymlog logScale samples <;> simp [husl]
    · intro u hu
      rcases List.mem_cons.mp hu with h0 | h0
      · subst h0
        exact ⟨foldl_min_le_init vs u, foldl_max_le_init vs u⟩
      · exact ⟨foldl_min_le_mem vs v u h0, foldl_max_le_mem vs v u h0⟩
    · rcases foldl_min_mem vs v with h0 | h0
      · rw [h0]
        exact List.mem_cons_self v vs
      · exact List.mem_cons_of_mem v h0
    · rcases foldl_max_mem vs v with h0 | h0
      · rw [h0]
        exact List.mem_cons_self v vs
      · exact List.mem_cons_of_mem v h0

/-- C5 witness: the spec example, via the bounds theorem at the concrete
dataset with values `5, -3, 10`. -/
theorem axis_bounds_formulas_witness :
    yLimits true [⟨0, [5, -3, 10]⟩] = some (-33/10, 11) :=
  (axis_bounds_formulas true [⟨0, [5, -3, 10]⟩] (-3) 10 (by decide)
    (by decide)).2.2.2.2.2

/-- C6: each annotation-row label is the raw series name with every
parenthetical group removed and whitespace trimmed, suffixed with the
equals sign, then left-justified to the one common width computed once from
the full configured series set; hence every row label has exactly that
common width.  The spec example labels and their common padding hold. -/
theorem annotation_label_layout (display : List String) (l : String) (hl : l ∈ display) :
    make_row_label display l = ljust (labelText l) (compute_max_label_length display) ∧
    (make_row_label display l).length = compute_max_label_length display ∧
    labelText "Pedal(wped_w)(% PED)" = "Pedal = " ∧
    labelText "Eng spd(nmot_w)(1/min)" = "Eng spd = " ∧
    compute_max_label_length ["Pedal(wped_w)(% PED)", "Eng spd(nmot_w)(1/min)"] = 10 ∧
    make_row_label ["Pedal(wped_w)(% PED)", "Eng spd(nmot_w)(1/min)"]
      "Pedal(wped_w)(% PED)" = "Pedal =   " ∧
    make_row_label ["Pedal(wped_w)(% PED)", "Eng spd(nmot_w)(1/min)"]
      "Eng spd(nmot_w)(1/min)" = "Eng spd = " := by
  have hle : (labelText l).length ≤ compute_max_label_length display := by
    rw [compute_max_label_length]
    exact nat_foldl_max_mem _ 0 _ (List.mem_map_of_mem _ hl)
  refine ⟨rfl, ?_, by decide, by decide, by decide, by decide, by decide⟩
  rw [make_row_label, ljust_length]
  omega

/-- C6 witness: a configured series name padded to the common build-time
width. -/
theorem annotation_label_layout_witness :
    (make_row_label ["Pedal(wped_w)(% PED)", "Eng spd(nmot_w)(1/min)"]
      "Pedal(wped_w)(% PED)").length =
    compute_max_label_length ["Pedal(wped_w)(% PED)", "Eng spd(nmot_w)(1/min)"] :=
  (annotation_label_layout ["Pedal(wped_w)(% PED)", "Eng spd(nmot_w)(1/min)"]
    "Pedal(wped_w)(% PED)" (by decide)).2.1

/-- C8: the displayed value text is the fixed-point 2-decimal rendering,
right-aligned in a 10-character minimum field; the subsequent left-justify
to the default width 1 never changes the string since the formatted length
is always at least 10; concrete checks: `1.23` renders as `"      1.23"`
and `-0.001` as `"     -0.00"`. -/
theorem value_format_padding_noop (v : ℚ) (d : Nat) :
    format_value v 1 d = pyFixed v d ∧
    10 ≤ (format_value v 1 d).length ∧
    format_value (123/100) 1 2 = "      1.23" ∧
    format_value (-1/1000) 1 2 = "     -0.00" := by
  have hlen := pyFixed_length v d
  have hnoop : format_value v 1 d = pyFixed v d := by
    rw [format_value]
    exact ljust_of_ge _ _ (by omega)
  have h123 : format_value (123/100) 1 2 = "      1.23" := by
    have h : roundHalfEven (|(123/100 : ℚ)| * (10 : ℚ) ^ 2) = 123 := by
      norm_num [roundHalfEven, Int.fract, abs]
    rw [format_value, pyFixed, h, if_neg (by norm_num : ¬ ((123 : ℚ)/100 < 0))]
    decide
  have hm0 : format_value (-1/1000) 1 2 = "     -0.00" := by
    have h : roundHalfEven (|(-1/1000 : ℚ)| * (10 : ℚ) ^ 2) = 0 := by
      norm_num [roundHalfEven, Int.fract, abs]
    rw [format_value, pyFixed, h, if_pos (by norm_num : ((-1 : ℚ)/1000 < 0))]
    decide
  refine ⟨hnoop, ?_, h123, hm0⟩
  rw [hnoop]
  exact hlen

end DynamicPlot
